import Mathlib

/-!
Verification development for the ContentLens AI orchestration core
(`backend/app`): the batch planner, router, parallel batch executor,
compliance rule engine and the HTTP handler are shallowly embedded as
executable Lean functions, and the specification's claims about them are
settled as theorems.
-/

namespace ContentLens

/-! ## Batch Planner (`nodes/router_node.py`, `group_parallel_agents`) -/

/-- Loop body of `group_parallel_agents`: walks the task list keeping the
pending batch `current`; `translate`/`compliance` flush the pending batch
and are emitted as singleton batches, everything else is appended to the
pending batch, which is flushed at the end if non-empty. -/
def groupAux : List String → List String → List (List String)
  | [], current => if current.isEmpty then [] else [current]
  | task :: rest, current =>
    if task == "translate" then
      (if current.isEmpty then [] else [current]) ++ [task] :: groupAux rest []
    else if task == "compliance" then
      (if current.isEmpty then [] else [current]) ++ [task] :: groupAux rest []
    else
      groupAux rest (current ++ [task])

/-- `group_parallel_agents(tasks)` from `nodes/router_node.py`: groups the
ordered task list into batches for parallel execution (the `for task in
enumerate(tasks)` loop with the final flush). -/
def group_parallel_agents (tasks : List String) : List (List String) :=
  if tasks.isEmpty then [] else groupAux tasks []

theorem groupAux_join (ts : List String) :
    ∀ cur, (groupAux ts cur).flatten = cur ++ ts := by
  induction ts with
  | nil =>
    intro cur
    by_cases h : cur.isEmpty
    · simp [groupAux, h, List.isEmpty_iff.mp h]
    · simp [groupAux, h]
  | cons t rest ih =>
    intro cur
    by_cases ht : t == "translate"
    · have htv : t = "translate" := by simpa using ht
      by_cases hc : cur.isEmpty
      · simp [groupAux, ht, hc, ih, htv, List.isEmpty_iff.mp hc]
      · simp [groupAux, ht, hc, ih, htv]
    · by_cases ht2 : t == "compliance"
      · have htv : t = "compliance" := by simpa using ht2
        by_cases hc : cur.isEmpty
        · simp [groupAux, ht, ht2, hc, ih, htv, List.isEmpty_iff.mp hc]
        · simp [groupAux, ht, ht2, hc, ih, htv]
      · simp [groupAux, ht, ht2, ih]

/-- Every batch produced by the loop is non-empty, and a batch containing
`translate` or `compliance` is exactly that singleton (provided the pending
batch holds no such task, which the loop maintains). -/
theorem groupAux_batches (ts : List String) :
    ∀ cur, (∀ x ∈ cur, x ≠ "translate" ∧ x ≠ "compliance") →
      ∀ b ∈ groupAux ts cur,
        b ≠ [] ∧ ∀ x ∈ b, (x = "translate" ∨ x = "compliance") → b = [x] := by
  induction ts with
  | nil =>
    intro cur hcur b hb
    by_cases h : cur.isEmpty
    · simp [groupAux, h] at hb
    · simp [groupAux, h] at hb
      subst hb
      refine ⟨by simpa using h, ?_⟩
      intro x hx hor
      rcases hor with h1 | h1 <;> exact absurd h1 (by cases hcur x hx with
        | intro a b => first | exact a | exact b)
  | cons t rest ih =>
    intro cur hcur b hb
    by_cases ht : t == "translate"
    · have htv : t = "translate" := by simpa using ht
      by_cases hc : cur.isEmpty
      · simp [groupAux, ht, hc] at hb
        rcases hb with hb | hb
        · subst hb
          exact ⟨by simp, by intro x hx hor; simp_all⟩
        · exact ih [] (by simp) b hb
      · simp [groupAux, ht, hc] at hb
        rcases hb with hb | hb | hb
        · subst hb
          refine ⟨by simpa using hc, ?_⟩
          intro x hx hor
          rcases hor with h1 | h1 <;>
            exact absurd h1 (by cases hcur x hx with
              | intro a b => first | exact a | exact b)
        · subst hb
          exact ⟨by simp, by intro x hx hor; simp_all⟩
        · exact ih [] (by simp) b hb
    · by_cases ht2 : t == "compliance"
      · have htv : t = "compliance" := by simpa using ht2
        by_cases hc : cur.isEmpty
        · simp [groupAux, ht, ht2, hc] at hb
          rcases hb with hb | hb
          · subst hb
            exact ⟨by simp, by intro x hx hor; simp_all⟩
          · exact ih [] (by simp) b hb
        · simp [groupAux, ht, ht2, hc] at hb
          rcases hb with hb | hb | hb
          · subst hb
            refine ⟨by simpa using hc, ?_⟩
            intro x hx hor
            rcases hor with h1 | h1 <;>
              exact absurd h1 (by cases hcur x hx with
                | intro a b => first | exact a | exact b)
          · subst hb
            exact ⟨by simp, by intro x hx hor; simp_all⟩
          · exact ih [] (by simp) b hb
      · have hne : t ≠ "translate" := by simpa using ht
        have hne2 : t ≠ "compliance" := by simpa using ht2
        simp only [groupAux, ht, ht2, if_neg, Bool.false_eq_true] at hb
        refine ih (cur ++ [t]) ?_ b ?_
        · intro x hx
          rcases List.mem_append.mp hx with h | h
          · exact hcur x h
          · simp at h
            subst h
            exact ⟨hne, hne2⟩
        · simpa using hb

/-- A batch that consists of exactly one isolated task. -/
def isSoloBatch (b : List String) : Prop := b = ["translate"] ∨ b = ["compliance"]

instance (b : List String) : Decidable (isSoloBatch b) := by
  unfold isSoloBatch; infer_instance

/-- No two adjacent batches are both pending-batch flushes: between any two
non-solo batches there is a `translate`/`compliance` singleton (otherwise the
loop would have kept appending to the same pending batch). -/
theorem groupAux_chain (ts : List String) :
    ∀ cur, List.Chain' (fun b₁ b₂ => isSoloBatch b₁ ∨ isSoloBatch b₂) (groupAux ts cur) := by
  induction ts with
  | nil =>
    intro cur
    by_cases h : cur.isEmpty <;> simp [groupAux, h]
  | cons t rest ih =>
    intro cur
    by_cases ht : t == "translate"
    · have htv : t = "translate" := by simpa using ht
      have hsolo : isSoloBatch [t] := Or.inl (by rw [htv])
      have htail : List.Chain' (fun b₁ b₂ => isSoloBatch b₁ ∨ isSoloBatch b₂)
          ([t] :: groupAux rest []) :=
        List.chain'_cons'.mpr ⟨fun _ _ => Or.inl hsolo, ih []⟩
      by_cases hc : cur.isEmpty
      · simpa [groupAux, ht, hc] using htail
      · simp only [groupAux, ht, if_neg, hc]
        simpa [List.chain'_cons, hc] using ⟨Or.inr hsolo, htail⟩
    · by_cases ht2 : t == "compliance"
      · have htv : t = "compliance" := by simpa using ht2
        have hsolo : isSoloBatch [t] := Or.inr (by rw [htv])
        have htail : List.Chain' (fun b₁ b₂ => isSoloBatch b₁ ∨ isSoloBatch b₂)
            ([t] :: groupAux rest []) :=
          List.chain'_cons'.mpr ⟨fun _ _ => Or.inl hsolo, ih []⟩
        by_cases hc : cur.isEmpty
        · simpa [groupAux, ht, ht2, hc] using htail
        · simp only [groupAux, ht, ht2, if_neg, hc]
          simpa [List.chain'_cons, hc] using ⟨Or.inr hsolo, htail⟩
      · simpa [groupAux, ht, ht2] using ih (cur ++ [t])

/-- C1: for every task list `T`, `group_parallel_agents` returns batches whose
concatenation equals `T` in order; every batch containing `translate` or
`compliance` is that singleton batch; no two adjacent batches are both
pending-batch flushes (so every other capability was appended to the current
pending batch, flushed only at a `translate`/`compliance` boundary or at the
end); and the empty input yields the empty batch list. -/
theorem group_parallel_agents_spec :
    group_parallel_agents [] = [] ∧
    ∀ T, (group_parallel_agents T).flatten = T ∧
      (∀ b ∈ group_parallel_agents T, b ≠ [] ∧
        ∀ x ∈ b, (x = "translate" ∨ x = "compliance") → b = [x]) ∧
      List.Chain' (fun b₁ b₂ => isSoloBatch b₁ ∨ isSoloBatch b₂)
        (group_parallel_agents T) := by
  refine ⟨rfl, fun T => ?_⟩
  by_cases hT : T.isEmpty
  · simp [group_parallel_agents, hT, List.isEmpty_iff.mp hT]
  · refine ⟨?_, ?_, ?_⟩
    · simpa [group_parallel_agents, hT] using groupAux_join T []
    · intro b hb
      simp only [group_parallel_agents, hT, Bool.false_eq_true, if_false] at hb
      exact groupAux_batches T [] (by simp) b hb
    · simpa [group_parallel_agents, hT] using groupAux_chain T []

/-- Closed instance of `group_parallel_agents_spec` at a concrete task list. -/
theorem group_parallel_agents_spec_witness :
    (group_parallel_agents ["summarize", "analyze", "translate"]).flatten
        = ["summarize", "analyze", "translate"] ∧
    (["translate"] ≠ ([] : List String) ∧
      ∀ x ∈ ["translate"], (x = "translate" ∨ x = "compliance") → ["translate"] = [x]) := by
  refine ⟨(group_parallel_agents_spec.2 ["summarize", "analyze", "translate"]).1, ?_⟩
  exact (group_parallel_agents_spec.2 ["summarize", "analyze", "translate"]).2.1
    ["translate"] (by decide)

/-! ## String helpers (Python `str` operations used by the agents) -/

/-- Python `str.lower()` (ASCII case folding, as in the model). -/
def toLowerStr (s : String) : String := String.mk (s.data.map Char.toLower)

/-- Strip leading and trailing whitespace from a character list. -/
def stripChars (l : List Char) : List Char :=
  ((l.dropWhile Char.isWhitespace).reverse.dropWhile Char.isWhitespace).reverse

/-- Python `str.strip()`. -/
def stripStr (s : String) : String := String.mk (stripChars s.data)

/-- `needle` occurs at the start of `hay`. -/
def startsWithChars : List Char → List Char → Bool
  | [], _ => true
  | _ :: _, [] => false
  | a :: as, b :: bs => a == b && startsWithChars as bs

/-- Python substring containment `needle in hay`. -/
def containsChars (needle : List Char) : List Char → Bool
  | [] => startsWithChars needle []
  | c :: rest => startsWithChars needle (c :: rest) || containsChars needle rest

/-- Python substring containment on strings. -/
def containsStr (needle hay : String) : Bool := containsChars needle.data hay.data

/-- Python `str.split(",")` accumulator. -/
def splitCommaAux : List Char → List Char → List (List Char)
  | [], acc => [acc.reverse]
  | c :: rest, acc =>
    if c == ',' then acc.reverse :: splitCommaAux rest [] else splitCommaAux rest (c :: acc)

/-- Python `response.split(",")`. -/
def splitComma (s : String) : List String := (splitCommaAux s.data []).map String.mk

/-! ## Task Router (`agents/router.py`, `RouterAgent`) -/

/-- The whitelist `valid_steps` of `RouterAgent.decide`. -/
def valid_steps : List String :=
  ["summarize", "translate", "analyze", "recommend", "ideate", "copywrite", "compliance"]

/-- The sanitization loop of `RouterAgent.decide`: for each token, append the
first whitelisted capability that occurs inside the token and is not already
selected (`if valid in task and valid not in filtered_tasks`). -/
def filterTasks (tasks : List String) : List String :=
  tasks.foldl
    (fun filtered task =>
      match valid_steps.find? (fun v => containsStr v task && !(filtered.contains v)) with
      | some v => filtered ++ [v]
      | none => filtered)
    []

/-- Keywords of the translation category in `_keyword_fallback`. -/
def kwTranslate : List String := ["translate", "arabic", "عربي", "ترجم"]

/-- Keywords of the analysis category. -/
def kwAnalyze : List String := ["analyze", "analysis", "audit", "assess", "review", "brief"]

/-- Keywords of the summary category. -/
def kwSummarize : List String := ["summarize", "summary", "tldr", "brief overview", "short"]

/-- Keywords of the recommendation category. -/
def kwRecommend : List String := ["recommend", "suggestion", "ideas", "what should", "next steps"]

/-- Keywords of the ideation category. -/
def kwIdeate : List String := ["idea", "ideas", "campaign", "headline", "tagline", "concept"]

/-- Keywords of the copywriting category. -/
def kwCopywrite : List String := ["email", "subject", "copy", "landing", "ad", "headline", "cta"]

/-- Keywords of the compliance category. -/
def kwCompliance : List String := ["gdpr", "can-spam", "privacy", "compliance", "opt-out", "unsubscribe"]

/-- `any(word in request_lower for word in ws)`. -/
def hasKw (ws : List String) (r : String) : Bool := ws.any (fun w => containsStr w r)

/-- One `if ... : tasks.append(name)` step of `_keyword_fallback`. -/
def addIf (cond : Bool) (name : String) (tasks : List String) : List String :=
  if cond then tasks ++ [name] else tasks

/-- The summary step of `_keyword_fallback`: `tasks.insert(0, "summarize")`
guarded by `"summarize" not in tasks`. -/
def addSummarize (cond : Bool) (tasks : List String) : List String :=
  if cond then (if !(tasks.contains "summarize") then "summarize" :: tasks else tasks)
  else tasks

/-- The accumulation phase of `_keyword_fallback` on the lowercased request
`r`; the steps are applied innermost-first, in the source order
(translate, analyze, summarize, recommend, ideate, copywrite, compliance). -/
def keyword_fallback_tasks (r : String) : List String :=
  addIf (hasKw kwCompliance r) "compliance"
    (addIf (hasKw kwCopywrite r) "copywrite"
      (addIf (hasKw kwIdeate r) "ideate"
        (addIf (hasKw kwRecommend r) "recommend"
          (addSummarize (hasKw kwSummarize r)
            (addIf (hasKw kwAnalyze r) "analyze"
              (addIf (hasKw kwTranslate r) "translate" []))))))

/-- `RouterAgent._keyword_fallback`: deterministic keyword matching on the
lowercased request, category by category, `summarize` inserted at position 0,
defaulting to `["analyze"]` when nothing matches. -/
def keyword_fallback (user_request : String) : List String :=
  if (keyword_fallback_tasks (toLowerStr user_request)).isEmpty then ["analyze"]
  else keyword_fallback_tasks (toLowerStr user_request)

/-- All keyword lists used by `_keyword_fallback`, concatenated. -/
def fallbackKeywords : List String :=
  kwTranslate ++ kwAnalyze ++ kwSummarize ++ kwRecommend ++
    kwIdeate ++ kwCopywrite ++ kwCompliance

/-- `RouterAgent.decide`: the primary LLM call is abstracted as an
`Except String String` (a raised exception or the raw response string).
The `try` body strips/lowercases the response, splits on commas, sanitizes
against the whitelist, and falls back to keyword matching when the result is
empty; the `except` arm falls back as well. -/
def RouterAgent.decide (llm : Except String String) (user_request : String) : List String :=
  match llm with
  | .error _ => keyword_fallback user_request
  | .ok response =>
    if (filterTasks ((splitComma (toLowerStr (stripStr response))).map stripStr)).isEmpty
    then keyword_fallback user_request
    else filterTasks ((splitComma (toLowerStr (stripStr response))).map stripStr)

theorem addIf_mem {cond : Bool} {name : String} {tasks : List String} {x : String}
    (h : x ∈ addIf cond name tasks) : x = name ∨ x ∈ tasks := by
  unfold addIf at h
  split at h
  · rcases List.mem_append.mp h with h1 | h1
    · exact Or.inr h1
    · simp at h1; exact Or.inl h1
  · exact Or.inr h

theorem addSummarize_mem {cond : Bool} {tasks : List String} {x : String}
    (h : x ∈ addSummarize cond tasks) : x = "summarize" ∨ x ∈ tasks := by
  unfold addSummarize at h
  split at h
  · split at h
    · rcases List.mem_cons.mp h with h1 | h1
      · exact Or.inl h1
      · exact Or.inr h1
    · exact Or.inr h
  · exact Or.inr h

theorem keyword_fallback_tasks_subset (r : String) :
    ∀ t ∈ keyword_fallback_tasks r, t ∈ valid_steps := by
  intro t ht
  unfold keyword_fallback_tasks at ht
  rcases addIf_mem ht with h | h; · subst h; simp [valid_steps]
  rcases addIf_mem h with h | h; · subst h; simp [valid_steps]
  rcases addIf_mem h with h | h; · subst h; simp [valid_steps]
  rcases addIf_mem h with h | h; · subst h; simp [valid_steps]
  rcases addSummarize_mem h with h | h; · subst h; simp [valid_steps]
  rcases addIf_mem h with h | h; · subst h; simp [valid_steps]
  rcases addIf_mem h with h | h; · subst h; simp [valid_steps]
  simp at h

theorem keyword_fallback_subset (req : String) :
    ∀ t ∈ keyword_fallback req, t ∈ valid_steps := by
  intro t ht
  unfold keyword_fallback at ht
  split at ht
  · simp at ht; subst ht; simp [valid_steps]
  · exact keyword_fallback_tasks_subset _ t ht

theorem keyword_fallback_ne_nil (req : String) : keyword_fallback req ≠ [] := by
  unfold keyword_fallback
  split
  · simp
  · rename_i h
    simpa [List.isEmpty_iff] using h

theorem filterTasks_subset (tasks : List String) :
    ∀ t ∈ filterTasks tasks, t ∈ valid_steps := by
  suffices h : ∀ acc, (∀ t ∈ acc, t ∈ valid_steps) →
      ∀ t ∈ tasks.foldl
        (fun filtered task =>
          match valid_steps.find? (fun v => containsStr v task && !(filtered.contains v)) with
          | some v => filtered ++ [v]
          | none => filtered)
        acc, t ∈ valid_steps by
    exact h [] (by simp)
  induction tasks with
  | nil => intro acc hacc; simpa using hacc
  | cons task rest ih =>
    intro acc hacc
    simp only [List.foldl_cons]
    refine ih _ ?_
    cases hfind : valid_steps.find?
        (fun v => containsStr v task && !(acc.contains v)) with
    | none => simpa [hfind] using hacc
    | some v =>
      have hv : v ∈ valid_steps := List.mem_of_find?_eq_some hfind
      simp only [hfind]
      intro t ht
      rcases List.mem_append.mp ht with h | h
      · exact hacc t h
      · simp at h; subst h; exact hv

theorem hasKw_eq_false {ws : List String} {r : String}
    (h : ∀ w ∈ ws, containsStr w r = false) : hasKw ws r = false := by
  simp only [hasKw, List.any_eq_false]
  intro w hw
  simp [h w hw]

theorem keyword_fallback_default {req : String}
    (h : ∀ w ∈ fallbackKeywords, containsStr w (toLowerStr req) = false) :
    keyword_fallback req = ["analyze"] := by
  have hnone : ∀ ws : List String, (∀ w ∈ ws, w ∈ fallbackKeywords) →
      hasKw ws (toLowerStr req) = false := by
    intro ws hws
    exact hasKw_eq_false fun w hw => h w (hws w hw)
  have h1 := hnone kwTranslate (by intro w hw; simp [fallbackKeywords, hw])
  have h2 := hnone kwAnalyze (by intro w hw; simp [fallbackKeywords, hw])
  have h3 := hnone kwSummarize (by intro w hw; simp [fallbackKeywords, hw])
  have h4 := hnone kwRecommend (by intro w hw; simp [fallbackKeywords, hw])
  have h5 := hnone kwIdeate (by intro w hw; simp [fallbackKeywords, hw])
  have h6 := hnone kwCopywrite (by intro w hw; simp [fallbackKeywords, hw])
  have h7 := hnone kwCompliance (by intro w hw; simp [fallbackKeywords, hw])
  have htasks : keyword_fallback_tasks (toLowerStr req) = [] := by
    simp [keyword_fallback_tasks, addIf, addSummarize, h1, h2, h3, h4, h5, h6, h7]
  simp [keyword_fallback, htasks]

/-- C4: `RouterAgent.decide` is total on every primary-mechanism outcome
(modelled as `Except`, so no exception is propagated), always returns a
non-empty list of whitelisted capability names, degrades to the keyword
fallback on primary failure and on an empty sanitized result, and the
fallback defaults to `["analyze"]` when no keyword category matches. -/
theorem decide_spec : ∀ llm req,
    RouterAgent.decide llm req ≠ [] ∧
    (∀ t ∈ RouterAgent.decide llm req, t ∈ valid_steps) ∧
    (∀ e, RouterAgent.decide (.error e) req = keyword_fallback req) ∧
    (∀ resp, filterTasks ((splitComma (toLowerStr (stripStr resp))).map stripStr) = [] →
        RouterAgent.decide (.ok resp) req = keyword_fallback req) ∧
    ((∀ w ∈ fallbackKeywords, containsStr w (toLowerStr req) = false) →
        keyword_fallback req = ["analyze"]) := by
  intro llm req
  refine ⟨?_, ?_, fun e => rfl, ?_, fun h => keyword_fallback_default h⟩
  · cases llm with
    | error e => exact keyword_fallback_ne_nil req
    | ok resp =>
      simp only [RouterAgent.decide]
      split
      · exact keyword_fallback_ne_nil req
      · rename_i h
        simpa [List.isEmpty_iff] using h
  · cases llm with
    | error e => exact keyword_fallback_subset req
    | ok resp =>
      simp only [RouterAgent.decide]
      split
      · exact keyword_fallback_subset req
      · exact filterTasks_subset _
  · intro resp h
    unfold RouterAgent.decide
    simp [h]

/-- Closed instance of `decide_spec`: a sanitized LLM answer, an unparseable
LLM answer, and a request with no recognizable keyword. -/
theorem decide_spec_witness :
    RouterAgent.decide (Except.ok "translate, analyze") "hello" ≠ [] ∧
    "translate" ∈ valid_steps ∧
    RouterAgent.decide (Except.ok "garbage") "please do stuff"
        = keyword_fallback "please do stuff" ∧
    keyword_fallback "zzz qqq" = ["analyze"] := by
  refine ⟨(decide_spec (Except.ok "translate, analyze") "hello").1,
    (decide_spec (Except.ok "translate, analyze") "hello").2.1 "translate" (by decide),
    (decide_spec (Except.ok "garbage") "please do stuff").2.2.2.1 "garbage" (by decide),
    (decide_spec (Except.error "boom") "zzz qqq").2.2.2.2 (by decide)⟩

/-- C5 counterexample: for the request text "Give me a full report", the
keyword fallback matches no keyword category (the `[summarize, analyze,
recommend]` answer is an LLM-prompt example, not fallback behavior), so it
returns the default `["analyze"]`, not `["summarize", "analyze", "recommend"]`. -/
theorem full_report_fallback_counterexample :
    keyword_fallback "Give me a full report" = ["analyze"] ∧
    keyword_fallback "Give me a full report" ≠ ["summarize", "analyze", "recommend"] := by
  constructor <;> decide

/-- C5 (amended): for the request text "Give me a full report", the keyword
fallback yields exactly `["analyze"]` (default, since no keyword category
matches), and the planner groups it into the single batch `[["analyze"]]`. -/
theorem full_report_plan :
    keyword_fallback "Give me a full report" = ["analyze"] ∧
    group_parallel_agents (keyword_fallback "Give me a full report") = [["analyze"]] := by
  constructor <;> decide

/-! ## State model (`models/state/state.py`, `AgentState`) -/

/-- The orchestration-relevant fields of the `AgentState` TypedDict.
Absent/None TypedDict keys are `none`; agent outputs are abstracted to
strings (their content is irrelevant to the orchestration claims). -/
structure AgentState where
  raw_text : String := ""
  user_request : String := ""
  source_lang : Option String := none
  extraction : Option String := none
  next_steps : Option (List String) := none
  parallel_batches : List (List String) := []
  current_batch_index : Nat := 0
  current_step_index : Nat := 0
  summary : Option String := none
  translation : Option String := none
  analysis : Option String := none
  recommendation : Option String := none
  ideation : Option String := none
  copywriting : Option String := none
  compliance : Option String := none
  agent_errors : List (String × String) := []
  errors : List String := []
deriving DecidableEq

/-! ## Router node (`nodes/router_node.py`, `router_node`) -/

/-- The partial state update returned by `router_node` when it computes a plan. -/
structure RouterUpdate where
  next_steps : List String
  parallel_batches : List (List String)
  current_batch_index : Nat
  current_step_index : Nat
deriving DecidableEq

/-- `router_node`: skipped (`return {}`, modelled as `none`) when
`state.get("next_steps")` is truthy, i.e. a non-empty list; otherwise runs the
router decision (abstracted as `decide`), groups the batches and resets both
cursors to 0. -/
def router_node (decide : String → List String) (state : AgentState) : Option RouterUpdate :=
  if (state.next_steps.getD []).isEmpty then
    some { next_steps := decide state.user_request
           parallel_batches := group_parallel_agents (decide state.user_request)
           current_batch_index := 0
           current_step_index := 0 }
  else none

/-- LangGraph merge of a router update into the state (`return {}` merges
nothing). -/
def applyRouterUpdate (state : AgentState) : Option RouterUpdate → AgentState
  | none => state
  | some u =>
    { state with
      next_steps := some u.next_steps
      parallel_batches := u.parallel_batches
      current_batch_index := u.current_batch_index
      current_step_index := u.current_step_index }

/-- C6: when `next_steps` is already populated with a non-empty plan,
`router_node` returns no updates (`{}`), so re-invoking the routing/planning
stage leaves `next_steps`, `parallel_batches` and the batch cursor unchanged. -/
theorem router_node_idempotent :
    ∀ (dec : String → List String) (st : AgentState) (l : List String),
      st.next_steps = some l → l ≠ [] →
        router_node dec st = none ∧ applyRouterUpdate st (router_node dec st) = st := by
  intro dec st l hsome hne
  have : router_node dec st = none := by
    unfold router_node
    simp [hsome, List.isEmpty_iff, hne]
  exact ⟨this, by rw [this]; rfl⟩

/-- Closed instance of `router_node_idempotent` on a state whose plan is
already `["analyze"]`. -/
theorem router_node_idempotent_witness :
    router_node (fun _ => ["summarize"]) { next_steps := some ["analyze"] } = none ∧
    applyRouterUpdate { next_steps := some ["analyze"] }
        (router_node (fun _ => ["summarize"]) { next_steps := some ["analyze"] })
      = { next_steps := some ["analyze"] } :=
  router_node_idempotent (fun _ => ["summarize"]) { next_steps := some ["analyze"] }
    ["analyze"] rfl (by decide)

/-! ## Batch Executor (`nodes/parallel_batch_node.py`) -/

/-- The keys of `AGENT_MAP` (the agent classes themselves are abstracted: an
execution oracle `run` stands for `agent_class().run(...)`). -/
def AGENT_MAP : List String :=
  ["summarize", "translate", "analyze", "recommend", "ideate", "copywrite", "compliance"]

/-- The `state_key` dictionary of `_execute_agent`, with its
`f"{agent_name}_output"` default. -/
def state_key (agent_name : String) : String :=
  match agent_name with
  | "summarize" => "summary"
  | "translate" => "translation"
  | "analyze" => "analysis"
  | "recommend" => "recommendation"
  | "ideate" => "ideation"
  | "copywrite" => "copywriting"
  | "compliance" => "compliance"
  | _ => agent_name ++ "_output"

/-- `_execute_agent`: unknown agent names yield `{}`; a successful run yields
`{state_key: output}`; any exception (modelled as `.error`) is caught and
yields `{}` — no error entry is recorded anywhere. -/
def execute_agent (run : String → AgentState → Except String String)
    (agent_name : String) (state : AgentState) : List (String × String) :=
  if AGENT_MAP.contains agent_name then
    match run agent_name state with
    | .ok output => [(state_key agent_name, output)]
    | .error _ => []
  else []

/-- `_execute_batch_parallel`: every agent of the batch contributes its
`_execute_agent` update dict; `results.update(...)` over disjoint keys is the
concatenation of the per-agent updates. -/
def execute_batch_parallel (run : String → AgentState → Except String String)
    (batch : List String) (state : AgentState) : List (String × String) :=
  (batch.map (fun agent_name => execute_agent run agent_name state)).flatten

/-- The update dict `all_results` computed by `parallel_batch_executor` for
the current batch: a singleton batch is executed directly, larger batches via
the thread pool. -/
def batch_updates (run : String → AgentState → Except String String)
    (batch : List String) (state : AgentState) : List (String × String) :=
  match batch with
  | [agent_name] => execute_agent run agent_name state
  | _ => execute_batch_parallel run batch state

/-- Writing one `state_key`-keyed result into the state (the LangGraph merge
of the returned dict). -/
def setField (state : AgentState) (key value : String) : AgentState :=
  match key with
  | "summary" => { state with summary := some value }
  | "translation" => { state with translation := some value }
  | "analysis" => { state with analysis := some value }
  | "recommendation" => { state with recommendation := some value }
  | "ideation" => { state with ideation := some value }
  | "copywriting" => { state with copywriting := some value }
  | "compliance" => { state with compliance := some value }
  | _ => state

/-- Reading a capability-output field by its `state_key`. -/
def getField (state : AgentState) (key : String) : Option String :=
  match key with
  | "summary" => state.summary
  | "translation" => state.translation
  | "analysis" => state.analysis
  | "recommendation" => state.recommendation
  | "ideation" => state.ideation
  | "copywriting" => state.copywriting
  | "compliance" => state.compliance
  | _ => none

/-- Merging a whole update dict into the state. -/
def applyUpdates (state : AgentState) (updates : List (String × String)) : AgentState :=
  updates.foldl (fun s kv => setField s kv.1 kv.2) state

/-- `parallel_batch_executor`: with all batches consumed it returns `{}`
(state unchanged); otherwise it computes the current batch's update dict,
increments `current_batch_index` in place by one, and merges the results. -/
def parallel_batch_executor (run : String → AgentState → Except String String)
    (state : AgentState) : AgentState :=
  if h : state.current_batch_index < state.parallel_batches.length then
    applyUpdates { state with current_batch_index := state.current_batch_index + 1 }
      (batch_updates run (state.parallel_batches.get ⟨state.current_batch_index, h⟩) state)
  else state

theorem setField_preserves (s : AgentState) (k v : String) :
    (setField s k v).current_batch_index = s.current_batch_index ∧
    (setField s k v).parallel_batches = s.parallel_batches ∧
    (setField s k v).agent_errors = s.agent_errors ∧
    (setField s k v).next_steps = s.next_steps := by
  unfold setField
  split <;> exact ⟨rfl, rfl, rfl, rfl⟩

theorem applyUpdates_preserves (updates : List (String × String)) :
    ∀ s : AgentState,
      (applyUpdates s updates).current_batch_index = s.current_batch_index ∧
      (applyUpdates s updates).parallel_batches = s.parallel_batches ∧
      (applyUpdates s updates).agent_errors = s.agent_errors ∧
      (applyUpdates s updates).next_steps = s.next_steps := by
  induction updates with
  | nil => intro s; exact ⟨rfl, rfl, rfl, rfl⟩
  | cons kv rest ih =>
    intro s
    have h1 := setField_preserves s kv.1 kv.2
    have h2 := ih (setField s kv.1 kv.2)
    simp only [applyUpdates, List.foldl_cons] at h2 ⊢
    exact ⟨h2.1.trans h1.1, h2.2.1.trans h1.2.1,
      h2.2.2.1.trans h1.2.2.1, h2.2.2.2.trans h1.2.2.2⟩

/-- C3: the batch cursor is initialized to 0 by the router node, never
decreases, never exceeds the number of batches, advances by exactly one on a
call that processes a batch, and a call with the cursor at the end leaves the
state unchanged. -/
theorem batch_cursor_spec :
    (∀ (dec : String → List String) (st : AgentState),
        (st.next_steps.getD []).isEmpty →
        (router_node dec st).map RouterUpdate.current_batch_index = some 0) ∧
    (∀ run (st : AgentState),
        st.current_batch_index ≤ (parallel_batch_executor run st).current_batch_index) ∧
    (∀ run (st : AgentState), st.current_batch_index ≤ st.parallel_batches.length →
        (parallel_batch_executor run st).current_batch_index ≤ st.parallel_batches.length) ∧
    (∀ run (st : AgentState), st.current_batch_index < st.parallel_batches.length →
        (parallel_batch_executor run st).current_batch_index = st.current_batch_index + 1) ∧
    (∀ run (st : AgentState), st.current_batch_index = st.parallel_batches.length →
        parallel_batch_executor run st = st) := by
  have hcursor : ∀ run (st : AgentState)
      (h : st.current_batch_index < st.parallel_batches.length),
      (parallel_batch_executor run st).current_batch_index
        = st.current_batch_index + 1 := by
    intro run st h
    unfold parallel_batch_executor
    rw [dif_pos h]
    exact (applyUpdates_preserves _ _).1
  refine ⟨?_, ?_, ?_, ?_, ?_⟩
  · intro dec st h
    unfold router_node
    simp [h]
  · intro run st
    by_cases h : st.current_batch_index < st.parallel_batches.length
    · rw [hcursor run st h]; exact Nat.le_succ _
    · unfold parallel_batch_executor
      rw [dif_neg h]
  · intro run st hle
    by_cases h : st.current_batch_index < st.parallel_batches.length
    · rw [hcursor run st h]; exact h
    · unfold parallel_batch_executor
      rw [dif_neg h]
      exact hle
  · intro run st h
    exact hcursor run st h
  · intro run st h
    unfold parallel_batch_executor
    rw [dif_neg (by omega)]

/-- A state with one pending singleton batch, and one with its cursor already
past the single batch. -/
def stCursor : AgentState := { parallel_batches := [["analyze"]] }

/-- A state whose cursor equals the number of batches (terminal). -/
def stCursorDone : AgentState := { parallel_batches := [["analyze"]], current_batch_index := 1 }

/-- Closed instance of `batch_cursor_spec`: fresh state routes to cursor 0, a
pending batch advances the cursor to 1, and a terminal call is the identity. -/
theorem batch_cursor_spec_witness :
    (router_node (fun _ => ["analyze"]) {}).map RouterUpdate.current_batch_index = some 0 ∧
    (parallel_batch_executor (fun _ _ => Except.ok "out") stCursor).current_batch_index
      = stCursor.current_batch_index + 1 ∧
    parallel_batch_executor (fun _ _ => Except.ok "out") stCursorDone = stCursorDone :=
  ⟨batch_cursor_spec.1 (fun _ => ["analyze"]) {} (by decide),
    batch_cursor_spec.2.2.2.1 (fun _ _ => Except.ok "out") stCursor (by decide),
    batch_cursor_spec.2.2.2.2 (fun _ _ => Except.ok "out") stCursorDone (by decide)⟩

/-- C10: an agent name that is not a key of `AGENT_MAP` makes `_execute_agent`
return the empty update dict — no output entry, no exception; such a name is
simply dropped from its batch's results (the rest of the batch contributes as
if the unknown name were filtered out), and the executor never records an
error entry in the state. -/
theorem unknown_agent_skipped :
    (∀ run agent_name (st : AgentState), AGENT_MAP.contains agent_name = false →
        execute_agent run agent_name st = []) ∧
    (∀ run batch (st : AgentState),
        execute_batch_parallel run batch st
          = execute_batch_parallel run (batch.filter (fun n => AGENT_MAP.contains n)) st) ∧
    (∀ run (st : AgentState),
        (parallel_batch_executor run st).agent_errors = st.agent_errors) := by
  refine ⟨?_, ?_, ?_⟩
  · intro run agent_name st h
    unfold execute_agent
    rw [h]
    simp
  · intro run batch st
    induction batch with
    | nil => rfl
    | cons n rest ih =>
      by_cases hc : AGENT_MAP.contains n
      · have hfil : List.filter (fun n => AGENT_MAP.contains n) (n :: rest)
            = n :: List.filter (fun n => AGENT_MAP.contains n) rest := by
          rw [List.filter_cons, if_pos hc]
        rw [hfil]
        simp only [execute_batch_parallel, List.map_cons, List.flatten_cons] at ih ⊢
        rw [ih]
      · have hcf : AGENT_MAP.contains n = false := by simpa using hc
        have hfil : List.filter (fun n => AGENT_MAP.contains n) (n :: rest)
            = List.filter (fun n => AGENT_MAP.contains n) rest := by
          rw [List.filter_cons, if_neg hc]
        have hnone : execute_agent run n st = [] := by
          unfold execute_agent
          rw [hcf]
          simp
        rw [hfil]
        simp only [execute_batch_parallel, List.map_cons, List.flatten_cons, hnone,
          List.nil_append] at ih ⊢
        exact ih
  · intro run st
    unfold parallel_batch_executor
    by_cases h : st.current_batch_index < st.parallel_batches.length
    · rw [dif_pos h]
      exact (applyUpdates_preserves _ _).2.2.1
    · rw [dif_neg h]

/-- Closed instance of `unknown_agent_skipped` at the name `"unknown_agent"`. -/
theorem unknown_agent_skipped_witness :
    execute_agent (fun _ _ => Except.ok "x") "unknown_agent" {} = [] :=
  unknown_agent_skipped.1 (fun _ _ => Except.ok "x") "unknown_agent" {} (by decide)

theorem getField_setField_ne (s : AgentState) (k₁ key v : String) (h : k₁ ≠ key) :
    getField (setField s k₁ v) key = getField s key := by
  unfold setField getField
  split
  all_goals try rfl
  all_goals split <;> simp_all

theorem getField_ignores_cursor (s : AgentState) (x : Nat) (key : String) :
    getField { s with current_batch_index := x } key = getField s key := by
  unfold getField
  split <;> rfl

theorem getField_applyUpdates (updates : List (String × String)) :
    ∀ (s : AgentState) (key : String), key ∉ updates.map Prod.fst →
      getField (applyUpdates s updates) key = getField s key := by
  induction updates with
  | nil => intro s key _; rfl
  | cons kv rest ih =>
    intro s key h
    simp only [List.map_cons, List.mem_cons, not_or] at h
    have step : applyUpdates s (kv :: rest) = applyUpdates (setField s kv.1 kv.2) rest := rfl
    rw [step]
    exact (ih (setField s kv.1 kv.2) key h.2).trans
      (getField_setField_ne s kv.1 key kv.2 (Ne.symm h.1))

theorem state_key_inj :
    ∀ a ∈ AGENT_MAP, ∀ b ∈ AGENT_MAP, state_key a = state_key b → a = b := by decide

theorem execute_agent_error {run : String → AgentState → Except String String}
    {k e : String} {st : AgentState} (herr : run k st = Except.error e) :
    execute_agent run k st = [] := by
  unfold execute_agent
  rw [herr]
  split <;> rfl

theorem execute_batch_all_ok (run : String → AgentState → Except String String)
    (st : AgentState) :
    ∀ l : List String,
      (∀ n ∈ l, AGENT_MAP.contains n = true ∧ ∃ v, run n st = Except.ok v) →
      (execute_batch_parallel run l st).length = l.length ∧
      (execute_batch_parallel run l st).map Prod.fst = l.map state_key := by
  intro l
  induction l with
  | nil => intro _; exact ⟨rfl, rfl⟩
  | cons n rest ih =>
    intro hl
    obtain ⟨hmem, v, hv⟩ := hl n (by simp)
    have hexec : execute_agent run n st = [(state_key n, v)] := by
      unfold execute_agent
      rw [hmem, hv]
      simp
    have hrest := ih (fun m hm => hl m (by simp [hm]))
    simp only [execute_batch_parallel, List.map_cons, List.flatten_cons, hexec] at hrest ⊢
    refine ⟨?_, ?_⟩
    · simp [hrest.1]
    · simp [hrest.2]

theorem batch_updates_eq_parallel (run : String → AgentState → Except String String)
    (st : AgentState) (batch : List String) :
    batch_updates run batch st = execute_batch_parallel run batch st := by
  cases batch with
  | nil => rfl
  | cons a tail =>
    cases tail with
    | nil => simp [batch_updates, execute_batch_parallel]
    | cons b l => rfl

theorem execute_batch_split (run : String → AgentState → Except String String)
    (st : AgentState) (pre post : List String) (k : String) :
    execute_batch_parallel run (pre ++ k :: post) st
      = execute_batch_parallel run pre st ++ execute_agent run k st
          ++ execute_batch_parallel run post st := by
  simp [execute_batch_parallel, List.map_append, List.flatten_append]

/-- C2 (amended): in a batch of N tasks where exactly one task `k` fails and
the rest succeed, the merged update dict has exactly N-1 capability-output
entries, task `k` contributes no output key (its field stays as it was, null
if it was null), NO `agent_errors` entry is recorded (the source only logs the
exception), no exception escapes (`parallel_batch_executor` is total), and the
batch cursor still advances by 1. -/
theorem batch_single_failure :
    ∀ (run : String → AgentState → Except String String) (st : AgentState)
      (pre post : List String) (k e : String)
      (h : st.current_batch_index < st.parallel_batches.length),
      st.parallel_batches.get ⟨st.current_batch_index, h⟩ = pre ++ k :: post →
      (∀ n ∈ pre ++ post, AGENT_MAP.contains n = true ∧ ∃ v, run n st = Except.ok v) →
      run k st = Except.error e →
      AGENT_MAP.contains k = true →
      k ∉ pre ++ post →
      (batch_updates run (pre ++ k :: post) st).length = pre.length + post.length ∧
      state_key k ∉ (batch_updates run (pre ++ k :: post) st).map Prod.fst ∧
      getField (parallel_batch_executor run st) (state_key k)
        = getField st (state_key k) ∧
      (parallel_batch_executor run st).agent_errors = st.agent_errors ∧
      (parallel_batch_executor run st).current_batch_index
        = st.current_batch_index + 1 := by
  intro run st pre post k e h hbatch hok herr hkmem hnotmem
  have hpre := execute_batch_all_ok run st pre
    (fun n hn => hok n (List.mem_append_left _ hn))
  have hpost := execute_batch_all_ok run st post
    (fun n hn => hok n (List.mem_append_right _ hn))
  have herrexec : execute_agent run k st = [] := execute_agent_error herr
  have hupd : batch_updates run (pre ++ k :: post) st
      = execute_batch_parallel run pre st ++ execute_batch_parallel run post st := by
    rw [batch_updates_eq_parallel, execute_batch_split]
    simp [herrexec]
  have hnotin : state_key k ∉ (batch_updates run (pre ++ k :: post) st).map Prod.fst := by
    rw [hupd]
    simp only [List.map_append, hpre.2, hpost.2, List.mem_append, not_or]
    constructor
    · intro hcontra
      obtain ⟨n, hn, heq⟩ := List.mem_map.mp hcontra
      have hn' : n = k := state_key_inj n (by simpa using (hok n (List.mem_append_left _ hn)).1)
        k (by simpa using hkmem) heq
      exact hnotmem (hn' ▸ List.mem_append_left _ hn)
    · intro hcontra
      obtain ⟨n, hn, heq⟩ := List.mem_map.mp hcontra
      have hn' : n = k := state_key_inj n
        (by simpa using (hok n (List.mem_append_right _ hn)).1)
        k (by simpa using hkmem) heq
      exact hnotmem (hn' ▸ List.mem_append_right _ hn)
  refine ⟨?_, hnotin, ?_, ?_, ?_⟩
  · rw [hupd]
    simp [hpre.1, hpost.1]
  · unfold parallel_batch_executor
    rw [dif_pos h, hbatch]
    rw [getField_applyUpdates _ _ _ hnotin]
    exact getField_ignores_cursor st _ (state_key k)
  · unfold parallel_batch_executor
    rw [dif_pos h]
    exact (applyUpdates_preserves _ _).2.2.1
  · unfold parallel_batch_executor
    rw [dif_pos h]
    exact (applyUpdates_preserves _ _).1

/-- Execution oracle where only the `analyze` agent raises. -/
def failRun2 : String → AgentState → Except String String :=
  fun agent_name _ =>
    if agent_name == "analyze" then Except.error "ValueError: boom" else Except.ok "output"

/-- A state whose single pending batch is `["summarize", "analyze"]`. -/
def stC2 : AgentState := { parallel_batches := [["summarize", "analyze"]] }

/-- C2 counterexample: in the batch `["summarize", "analyze"]` with `analyze`
failing, the merged output has the expected N-1 = 1 entry and the cursor
advances, but the per-task error map stays EMPTY — it does not contain one
entry for the failing task, because `_execute_agent` only logs the exception
and returns `{}`. -/
theorem batch_error_map_counterexample :
    (batch_updates failRun2 ["summarize", "analyze"] stC2).length = 1 ∧
    (parallel_batch_executor failRun2 stC2).summary = some "output" ∧
    (parallel_batch_executor failRun2 stC2).analysis = none ∧
    (parallel_batch_executor failRun2 stC2).agent_errors = [] ∧
    ¬(parallel_batch_executor failRun2 stC2).agent_errors.length = 1 ∧
    (parallel_batch_executor failRun2 stC2).current_batch_index = 1 := by decide

/-- Closed instance of `batch_single_failure` on `stC2`. -/
theorem batch_single_failure_witness :
    (batch_updates failRun2 ["summarize", "analyze"] stC2).length = 1 ∧
    state_key "analyze" ∉ (batch_updates failRun2 ["summarize", "analyze"] stC2).map Prod.fst ∧
    getField (parallel_batch_executor failRun2 stC2) (state_key "analyze")
      = getField stC2 (state_key "analyze") ∧
    (parallel_batch_executor failRun2 stC2).agent_errors = stC2.agent_errors ∧
    (parallel_batch_executor failRun2 stC2).current_batch_index
      = stC2.current_batch_index + 1 := by
  have hmain := batch_single_failure failRun2 stC2 ["summarize"] [] "analyze"
    "ValueError: boom" (by decide) (by decide)
    (by
      intro n hn
      have hn' : n = "summarize" := by simpa using hn
      subst hn'
      exact ⟨by decide, "output", rfl⟩)
    rfl (by decide) (by decide)
  simpa using hmain

/-! ## Compliance agent (`agents/compliance.py`, `ComplianceAgent`)

The rule patterns are regular expressions of the shape `\b(w₁|w₂|…)\b` over
literal alternatives (`risk[- ]?free` is expanded into its three literal
forms).  `re.findall` is modelled by a left-to-right scan producing the
non-overlapping matches; `\w` is modelled as ASCII alphanumeric or
underscore (all texts of interest are ASCII after normalization). -/

/-- Regex `\w`. -/
def isWordChar (c : Char) : Bool := c.isAlphanum || c == '_'

/-- `\w`-ness of the character at a position, `none` meaning outside the text. -/
def isWordOpt : Option Char → Bool
  | none => false
  | some c => isWordChar c

/-- One alternative `p` matches at the current position of `s` (whose previous
character is `prev`): `p` is a prefix of `s` and both `\b` anchors hold. -/
def altOk (prev : Option Char) (s : List Char) (p : List Char) : Bool :=
  startsWithChars p s && (isWordOpt prev != isWordOpt p.head?) &&
    (isWordOpt p.getLast? != isWordOpt ((s.drop p.length).head?))

/-- The regex alternation: the first (leftmost) alternative matching at the
current position. -/
def altMatch (alts : List (List Char)) (prev : Option Char) (s : List Char) :
    Option (List Char) :=
  alts.find? (fun p => altOk prev s p)

/-- `re.findall` scan: at each position try the alternation; on a match record
it and continue after it, otherwise advance one character.  `fuel` bounds the
recursion (callers pass the text length, which suffices because every
alternative is non-empty). -/
def scanAux (alts : List (List Char)) : Nat → Option Char → List Char → List (List Char)
  | 0, _, _ => []
  | _ + 1, _, [] => []
  | fuel + 1, prev, c :: rest =>
    match altMatch alts prev (c :: rest) with
    | some m => m :: scanAux alts fuel m.getLast? ((c :: rest).drop m.length)
    | none => scanAux alts fuel (some c) rest

/-- `re.findall(pattern, s)` for a `\b(alt|…)\b` pattern: the list of matched
alternatives, leftmost and non-overlapping. -/
def findall (alts : List (List Char)) (s : List Char) : List (List Char) :=
  scanAux alts s.length none s

/-- Alternatives of the BLOCK rule `\b(spam|cookie stuffing|harvest|sell data|sell personal)\b`. -/
def blockAlts : List (List Char) :=
  ["spam".data, "cookie stuffing".data, "harvest".data, "sell data".data,
    "sell personal".data]

/-- Alternatives of the PRIVACY rule
`\b(ssn|social security|credit card|dob|date of birth|personal data)\b`. -/
def privacyAlts : List (List Char) :=
  ["ssn".data, "social security".data, "credit card".data, "dob".data,
    "date of birth".data, "personal data".data]

/-- Alternatives of the REVIEW rule `\b(guarantee|risk[- ]?free|best ever|unlimited)\b`
(the optional-class pattern expanded into its three literal forms). -/
def reviewAlts : List (List Char) :=
  ["guarantee".data, "risk-free".data, "risk free".data, "riskfree".data,
    "best ever".data, "unlimited".data]

/-- A `ComplianceRule` (severity as its string Enum value). -/
structure ComplianceRule where
  alternatives : List (List Char)
  severity : String
  description : String
deriving DecidableEq

/-- The `RULES` class attribute. -/
def RULES : List ComplianceRule :=
  [⟨blockAlts, "block", "Illegal or unethical marketing behavior"⟩,
    ⟨privacyAlts, "privacy", "Sensitive personal data detected"⟩,
    ⟨reviewAlts, "review", "Potential misleading marketing claim"⟩]

/-- An `Issue` TypedDict (`matched` models the `match` key, a reserved word in
Lean). -/
structure Issue where
  severity : String
  matched : List Char
  description : String
deriving DecidableEq

/-- State machine for `re.sub(r"\s+", " ", text)`: collapse whitespace runs
into single spaces (`prevWs` marks being inside a run). -/
def collapseWsAux (prevWs : Bool) : List Char → List Char
  | [] => []
  | c :: rest =>
    if c.isWhitespace then
      (if prevWs then collapseWsAux true rest else ' ' :: collapseWsAux true rest)
    else c :: collapseWsAux false rest

/-- `ComplianceAgent._normalize`: lowercase, collapse whitespace, strip. -/
def normalize (text : List Char) : List Char :=
  stripChars (collapseWsAux false (text.map Char.toLower))

/-- The rule-matching loop of `ComplianceAgent.run`: issues tagged with their
rule's severity and description, in rule order then match order. -/
def runRules (normalized : List Char) : List Issue :=
  (RULES.map (fun rule =>
    (findall rule.alternatives normalized).map
      (fun m => Issue.mk rule.severity m rule.description))).flatten

/-- `ComplianceAgent._resolve_status`. -/
def resolve_status (issues : List Issue) : String :=
  if issues.any (fun i => i.severity == "block") then "block"
  else if issues.any (fun i => i.severity == "privacy") then "review"
  else if !issues.isEmpty then "review"
  else "ok"

/-- The `weights` dictionary of `_calculate_risk`; `none` models a `KeyError`. -/
def weightOf (severity : String) : Option Nat :=
  match severity with
  | "block" => some 5
  | "privacy" => some 3
  | "review" => some 1
  | _ => none

/-- `ComplianceAgent._calculate_risk`: the weighted sum, `none` if any lookup
would raise `KeyError`. -/
def calculate_risk : List Issue → Option Nat
  | [] => some 0
  | i :: rest =>
    match weightOf i.severity, calculate_risk rest with
    | some w, some r => some (w + r)
    | _, _ => none

/-- The report dict returned by `ComplianceAgent.run`. -/
structure ComplianceReport where
  status : String
  issues : List Issue
  issue_count : Nat
  risk_score : Option Nat
deriving DecidableEq

/-- `ComplianceAgent.run` (content as a character list). -/
def ComplianceAgent.run (content : List Char) : ComplianceReport :=
  { status := resolve_status (runRules (normalize content))
    issues := runRules (normalize content)
    issue_count := (runRules (normalize content)).length
    risk_score := calculate_risk (runRules (normalize content)) }

theorem runRules_severities (s : List Char) :
    ∀ i ∈ runRules s,
      i.severity = "block" ∨ i.severity = "privacy" ∨ i.severity = "review" := by
  intro i hi
  simp only [runRules, RULES, List.map_cons, List.map_nil, List.flatten_cons,
    List.flatten_nil, List.append_nil, List.mem_append, List.mem_map] at hi
  rcases hi with ⟨m, hm, heq⟩ | ⟨m, hm, heq⟩ | ⟨m, hm, heq⟩ <;> rw [← heq] <;> simp

theorem calculate_risk_spec : ∀ issues : List Issue,
    (∀ i ∈ issues, i.severity = "block" ∨ i.severity = "privacy" ∨ i.severity = "review") →
    calculate_risk issues = some (
      5 * issues.countP (fun i => i.severity == "block") +
      3 * issues.countP (fun i => i.severity == "privacy") +
      1 * issues.countP (fun i => i.severity == "review")) := by
  intro issues
  induction issues with
  | nil => intro _; rfl
  | cons i rest ih =>
    intro h
    have hrest := ih (fun j hj => h j (by simp [hj]))
    rcases h i (by simp) with hs | hs | hs <;>
      simp [calculate_risk, weightOf, hs, hrest, List.countP_cons] <;> ring

theorem resolve_status_spec : ∀ issues : List Issue,
    (∀ i ∈ issues, i.severity = "block" ∨ i.severity = "privacy" ∨ i.severity = "review") →
    (resolve_status issues = "ok" ↔ issues = []) ∧
    (resolve_status issues = "block" ↔ ∃ i ∈ issues, i.severity = "block") ∧
    resolve_status issues ≠ "privacy" ∧
    (issues ≠ [] → (¬∃ i ∈ issues, i.severity = "block") →
      resolve_status issues = "review") := by
  intro issues _
  by_cases hb : issues.any (fun i => i.severity == "block")
  · have hex : ∃ i ∈ issues, i.severity = "block" := by
      obtain ⟨i, hi, hp⟩ := List.any_eq_true.mp hb
      exact ⟨i, hi, by simpa using hp⟩
    unfold resolve_status
    rw [if_pos hb]
    refine ⟨⟨fun habs => absurd habs (by decide), fun hnil => ?_⟩,
      ⟨fun _ => hex, fun _ => rfl⟩, by decide, fun _ hno => absurd hex hno⟩
    subst hnil
    simp at hb
  · have hnob : ¬∃ i ∈ issues, i.severity = "block" := by
      rintro ⟨i, hi, hsev⟩
      exact hb (List.any_eq_true.mpr ⟨i, hi, by simp [hsev]⟩)
    by_cases hp : issues.any (fun i => i.severity == "privacy")
    · have hne : issues ≠ [] := by
        intro hnil
        subst hnil
        simp at hp
      unfold resolve_status
      rw [if_neg hb, if_pos hp]
      exact ⟨⟨fun habs => absurd habs (by decide), fun hnil => absurd hnil hne⟩,
        ⟨fun habs => absurd habs (by decide), fun hex => absurd hex hnob⟩,
        by decide, fun _ _ => rfl⟩
    · by_cases he : issues.isEmpty
      · have hnil : issues = [] := List.isEmpty_iff.mp he
        subst hnil
        exact ⟨⟨fun _ => rfl, fun _ => rfl⟩,
          ⟨fun habs => absurd habs (by decide), fun hex => by simp at hex⟩,
          by decide, fun hne _ => absurd rfl hne⟩
      · have hne : issues ≠ [] := by simpa [List.isEmpty_iff] using he
        unfold resolve_status
        rw [if_neg hb, if_neg hp, if_pos (by simpa using he)]
        exact ⟨⟨fun habs => absurd habs (by decide), fun hnil => absurd hnil hne⟩,
          ⟨fun habs => absurd habs (by decide), fun hex => absurd hex hnob⟩,
          by decide, fun _ _ => rfl⟩

/-- C9: the compliance status is `"ok"` exactly when no rule matched,
`"block"` exactly when a block-severity issue exists, `"review"` in every
other non-empty case (never the string `"privacy"`), and the risk score is
5 per block issue + 3 per privacy issue + 1 per review issue. -/
theorem compliance_report_spec : ∀ content : List Char,
    ((ComplianceAgent.run content).status = "ok" ↔
      (ComplianceAgent.run content).issues = []) ∧
    ((ComplianceAgent.run content).status = "block" ↔
      ∃ i ∈ (ComplianceAgent.run content).issues, i.severity = "block") ∧
    (ComplianceAgent.run content).status ≠ "privacy" ∧
    ((ComplianceAgent.run content).issues ≠ [] →
      (¬∃ i ∈ (ComplianceAgent.run content).issues, i.severity = "block") →
      (ComplianceAgent.run content).status = "review") ∧
    (ComplianceAgent.run content).risk_score = some (
      5 * (ComplianceAgent.run content).issues.countP (fun i => i.severity == "block") +
      3 * (ComplianceAgent.run content).issues.countP (fun i => i.severity == "privacy") +
      1 * (ComplianceAgent.run content).issues.countP (fun i => i.severity == "review")) := by
  intro content
  have hsev := runRules_severities (normalize content)
  have h1 := resolve_status_spec (runRules (normalize content)) hsev
  have h2 := calculate_risk_spec (runRules (normalize content)) hsev
  exact ⟨h1.1, h1.2.1, h1.2.2.1, h1.2.2.2, h2⟩

/-- Closed instance of `compliance_report_spec`: a review-only text resolves
to `"review"`, and a block keyword resolves to `"block"`. -/
theorem compliance_report_spec_witness :
    (ComplianceAgent.run ("best ever deal".data)).status = "review" ∧
    (ComplianceAgent.run ("spam".data)).status = "block" :=
  ⟨(compliance_report_spec ("best ever deal".data)).2.2.2.1 (by decide) (by decide),
    (compliance_report_spec ("spam".data)).2.1.mpr
      ⟨Issue.mk "block" ("spam".data) "Illegal or unethical marketing behavior",
        by decide, rfl⟩⟩

/-- C7 counterexample: the content "resell personal data" contains the
substring "sell personal data", but the `\b(…|sell personal)\b` BLOCK rule
does not match (no word boundary before "sell"), so only the PRIVACY rule
fires and the status is `"review"`, not `"block"`. -/
theorem sell_personal_data_counterexample :
    containsChars ("sell personal data".data) ("resell personal data".data) = true ∧
    (ComplianceAgent.run ("resell personal data".data)).status = "review" ∧
    ¬((ComplianceAgent.run ("resell personal data".data)).status = "block") := by
  exact ⟨by decide, by decide, by decide⟩

theorem startsWithChars_append (m post : List Char) :
    startsWithChars m (m ++ post) = true := by
  induction m with
  | nil => rfl
  | cons c cs ih => simp [startsWithChars, ih]

theorem or_some_absorb (y : Option Char) (c : Char) (prev : Option Char) :
    (y.or (some c)).or prev = y.or (some c) := by
  cases y <;> rfl

theorem getLast?_cons_or (c : Char) (l : List Char) :
    (c :: l).getLast? = (l.getLast?).or (some c) := by
  induction l generalizing c with
  | nil => rfl
  | cons d ds ih =>
    rw [List.getLast?_cons_cons, ih d]
    cases hx : ds.getLast? <;> rfl

/-- If some alternative occurs in the remaining text with both `\b` anchors
satisfied, the scan returns at least one match (either it reaches that
occurrence, or it has already recorded an earlier one). -/
theorem scanAux_ne_nil (alts : List (List Char)) (halts : ∀ p ∈ alts, p ≠ []) :
    ∀ (fuel : Nat) (prev : Option Char) (s pre m post : List Char),
      s.length ≤ fuel → m ∈ alts → s = pre ++ m ++ post →
      (isWordOpt ((pre.getLast?).or prev) != isWordOpt m.head?) = true →
      (isWordOpt m.getLast? != isWordOpt post.head?) = true →
      scanAux alts fuel prev s ≠ [] := by
  intro fuel
  induction fuel with
  | zero =>
    intro prev s pre m post hlen hm hs _ _
    have hnil : s = [] := List.length_eq_zero.mp (Nat.le_zero.mp hlen)
    rw [hnil] at hs
    have : m = [] := by
      have := hs.symm
      simp only [List.append_assoc, List.append_eq_nil] at this
      exact this.2.1
    exact absurd this (halts m hm)
  | succ fuel ih =>
    intro prev s pre m post hlen hm hs hb1 hb2
    cases s with
    | nil =>
      have : m = [] := by
        have := hs.symm
        simp only [List.append_assoc, List.append_eq_nil] at this
        exact this.2.1
      exact absurd this (halts m hm)
    | cons c rest =>
      cases hmatch : altMatch alts prev (c :: rest) with
      | some mfound => simp [scanAux, hmatch]
      | none =>
        cases pre with
        | nil =>
          exfalso
          simp only [List.nil_append] at hs
          have hok : altOk prev (c :: rest) m = true := by
            unfold altOk
            rw [hs, startsWithChars_append, List.drop_left]
            simp only [List.getLast?_nil, Option.or] at hb1
            rw [hb1, hb2]
            rfl
          exact (List.find?_eq_none.mp hmatch m hm) hok
        | cons p pre' =>
          have hcp : c = p ∧ rest = pre' ++ m ++ post := by
            simpa using hs
          obtain ⟨hcp1, hrest⟩ := hcp
          subst hcp1
          have hb1' :
              (isWordOpt ((pre'.getLast?).or (some c)) != isWordOpt m.head?) = true := by
            rw [getLast?_cons_or, or_some_absorb] at hb1
            exact hb1
          have hlen' : rest.length ≤ fuel := by
            simpa using Nat.le_of_succ_le_succ (by simpa using hlen)
          have htail := ih (some c) rest pre' m post hlen' hm hrest hb1' hb2
          simp only [scanAux, hmatch]
          exact htail

/-- `findall` finds a match whenever one exists. -/
theorem findall_ne_nil (alts : List (List Char)) (halts : ∀ p ∈ alts, p ≠ [])
    (s pre m post : List Char) (hm : m ∈ alts) (hs : s = pre ++ m ++ post)
    (hb1 : (isWordOpt pre.getLast? != isWordOpt m.head?) = true)
    (hb2 : (isWordOpt m.getLast? != isWordOpt post.head?) = true) :
    findall alts s ≠ [] := by
  unfold findall
  refine scanAux_ne_nil alts halts s.length none s pre m post (le_refl _) hm hs ?_ hb2
  cases hp : pre.getLast? with
  | none => simpa [hp, Option.or] using hb1
  | some a => simpa [hp, Option.or] using hb1

/-- C7 (amended): for every content whose normalized form contains
"sell personal data" not immediately preceded by a word character (i.e. at a
`\b` boundary, as in "… sell personal data …"), `ComplianceAgent.run` returns
status `"block"` with at least one block-severity issue. -/
theorem sell_personal_data_blocks :
    ∀ content pre post : List Char,
      normalize content = pre ++ "sell personal data".data ++ post →
      isWordOpt pre.getLast? = false →
      (ComplianceAgent.run content).status = "block" ∧
      ∃ i ∈ (ComplianceAgent.run content).issues, i.severity = "block" := by
  intro content pre post hnorm hpre
  have hs : normalize content = pre ++ "sell personal".data ++ (" data".data ++ post) := by
    rw [hnorm]
    have hdecomp : "sell personal data".data = "sell personal".data ++ " data".data := by
      decide
    rw [hdecomp]
    simp [List.append_assoc]
  have hb1 : (isWordOpt pre.getLast? != isWordOpt ("sell personal".data).head?) = true := by
    rw [hpre]
    decide
  have hb2 : (isWordOpt ("sell personal".data).getLast?
      != isWordOpt ((" data".data ++ post)).head?) = true := by
    have hhead : ((" data".data ++ post)).head? = some ' ' := rfl
    rw [hhead]
    decide
  have hfind : findall blockAlts (normalize content) ≠ [] :=
    findall_ne_nil blockAlts (by decide) (normalize content) pre ("sell personal".data)
      (" data".data ++ post) (by decide) hs hb1 hb2
  obtain ⟨mm, hmm⟩ := List.exists_mem_of_ne_nil _ hfind
  have hissue : (Issue.mk "block" mm "Illegal or unethical marketing behavior")
      ∈ runRules (normalize content) := by
    simp only [runRules, RULES, List.map_cons, List.map_nil, List.flatten_cons,
      List.flatten_nil, List.append_nil, List.mem_append, List.mem_map]
    exact Or.inl ⟨mm, hmm, rfl⟩
  have hany : (runRules (normalize content)).any (fun i => i.severity == "block") = true :=
    List.any_eq_true.mpr ⟨_, hissue, by simp⟩
  constructor
  · show resolve_status (runRules (normalize content)) = "block"
    unfold resolve_status
    rw [if_pos hany]
  · exact ⟨_, hissue, rfl⟩

/-- Closed instance of `sell_personal_data_blocks` on the content
"do not sell personal data". -/
theorem sell_personal_data_blocks_witness :
    (ComplianceAgent.run ("do not sell personal data".data)).status = "block" :=
  (sell_personal_data_blocks ("do not sell personal data".data) ("do not ".data) []
    (by decide) (by decide)).1

/-! ## HTTP handler (`api/routes.py`, `process_document`)

`run_document_workflow` (in `workflows/process_document.py`) is declared with
two parameters, `(file_path, user_request)`; the route handler invokes it with
three positional arguments, `(file_path, user_request, extract_flag)`.  In
Python that call raises `TypeError` before the workflow body runs; the
handler's `except Exception` arm converts any exception into an HTTP 500 with
detail `"Internal Server Error: …"`.  The call-arity semantics is made
explicit so that the handler can be evaluated. -/

/-- The outcome the workflow coroutine would produce if it ran: whether
`"error" in result`, the error message, and whether `result.get("extraction")`
is truthy. -/
structure WorkflowResult where
  hasError : Bool
  errorDetail : String
  hasExtraction : Bool
deriving DecidableEq

/-- Number of parameters of `run_document_workflow` as defined in
`workflows/process_document.py` (`file_path`, `user_request`). -/
def run_document_workflow_param_count : Nat := 2

/-- Python positional-call semantics: the call succeeds only when the
argument count matches the parameter count, otherwise it raises `TypeError`. -/
def callPython (paramCount argCount : Nat) (result : WorkflowResult) :
    Except String WorkflowResult :=
  if argCount = paramCount then Except.ok result
  else
    Except.error ("TypeError: run_document_workflow() takes " ++ toString paramCount
      ++ " positional arguments but " ++ toString argCount ++ " were given")

/-- The handler's response: the workflow state as JSON (HTTP 200) or an
`HTTPException`. -/
inductive HandlerResponse where
  | ok (result : WorkflowResult)
  | httpError (status : Nat) (detail : String)
deriving DecidableEq

/-- `process_document` from `api/routes.py`: saves the upload, calls
`run_document_workflow(file_path, user_request, extract_flag)` — three
positional arguments — raises 500 when the result has an `error` and no
`extraction`, and converts any exception into a 500 with
`"Internal Server Error: …"`. -/
def process_document (workflow : WorkflowResult) : HandlerResponse :=
  match callPython run_document_workflow_param_count 3 workflow with
  | Except.error e => HandlerResponse.httpError 500 ("Internal Server Error: " ++ e)
  | Except.ok result =>
    if result.hasError && !result.hasExtraction then
      HandlerResponse.httpError 500 result.errorDetail
    else HandlerResponse.ok result

/-- C8 evidence (code bug): because the handler passes three positional
arguments to the two-parameter `run_document_workflow`, EVERY request —
including one whose workflow would succeed — raises `TypeError` and yields
HTTP 500; the claimed 200-with-final-state path (asserted by the spec and by
`tests/test_api.py::test_process_document_success`) is unreachable. -/
theorem process_document_always_500 :
    ∀ w : WorkflowResult,
      process_document w = HandlerResponse.httpError 500
        ("Internal Server Error: TypeError: run_document_workflow() takes 2 " ++
          "positional arguments but 3 were given") := by
  intro w
  rfl

end ContentLens
